import Mathlib

/- Verification development for the daily-selection engine of
   random-place-picker (src/app.py).

   Modelling conventions:
   * Times are integer second counts.  A Python datetime value is an
     absolute number of seconds; a Python time-of-day value (produced by
     strptime("%H:%M").time()) is a second-of-day count.  dateOf recovers
     datetime.date.today() from the clock, combine models
     datetime.datetime.combine.
   * The SQLAlchemy store is an association list from day index to the
     daily_selection row; the unique constraint on date is the guard in
     store_in_db.  The places column is the comma-joined string, exactly
     as the source stores it; splitComma models str.split(",").
   * random.randint / random.sample / random.choice are driven by
     explicit seed arguments (Rng).
   * Python truthiness of the cache entries is modelled explicitly
     (None and empty collections are falsy; every time value is truthy).
   * An exception that escapes a function is an Except error or an
     Option PyErr result; an exception the source catches locally is
     folded into the returned state, reproducing exactly the mutations
     performed before the raise. -/

def secondsPerDay : Int := 86400

/-- Model of datetime.date.today() for a clock reading now (day index). -/
def dateOf (now : Int) : Int := now / secondsPerDay

/-- Model of datetime.datetime.combine(day, timeOfDay). -/
def combine (d : Int) (t : Nat) : Int := d * secondsPerDay + (t : Int)

/-- Helper for splitComma, walking the character list. -/
def splitCommaAux : List Char → List Char → List String
  | [], acc => [String.mk acc.reverse]
  | c :: cs, acc =>
      if c = ',' then String.mk acc.reverse :: splitCommaAux cs []
      else splitCommaAux cs (c :: acc)

/-- Model of Python str.split(",") as used on the places column. -/
def splitComma (s : String) : List String := splitCommaAux s.data []

/-- Model of Python ",".join(list) as used when storing the places column. -/
def joinComma : List String → String
  | [] => ""
  | [x] => x
  | x :: y :: t => x ++ "," ++ joinComma (y :: t)

/-- A gathering-time value held in the process cache: pick_places stores a
bare time-of-day (tod), while the database reload path stores a full
datetime (dt).  The distinction is load-bearing: the window check
subtracts a datetime and is only defined on dt values. -/
inductive GVal where
  | tod (t : Nat)
  | dt (g : Int)
deriving DecidableEq

/-- A daily_selection row: places is the comma-joined string column,
gathering_time a datetime, final_place a nullable string. -/
structure Row where
  places : String
  gathering_time : Int
  final_place : Option String
deriving DecidableEq

/-- The process-wide CACHE dictionary (line 65 of app.py). -/
structure Cache where
  today_choices : Option (List String)
  gathering_time : Option GVal
  final_place : Option String
deriving DecidableEq

/-- Whole-system state: the cache, the daily_selection table keyed by day
index, and the read-only catalog tables.  Catalog hours are stored
already parsed to seconds-of-day (the strptime step of the source). -/
structure Sys where
  cache : Cache
  store : List (Int × Row)
  catalog_places : List String
  catalog_hours : List Nat
deriving DecidableEq

/-- The only Python exception class that escapes the engine functions in
this model (unpacking None, and subtracting a datetime from a time). -/
inductive PyErr where
  | typeError
deriving DecidableEq

/-- Response of GET /choices. -/
inductive ChoicesResp where
  | noSelection
  | choices (ps : List String) (g : GVal) (fp : Option String)
deriving DecidableEq

/-- Random seeds consumed by one pick_places run. -/
structure Rng where
  nseed : Nat
  sseeds : List Nat
  hseed : Nat
deriving DecidableEq

/-- First row whose date column equals d (the query of
get_today_selection, filtered by date). -/
def lookupRow : List (Int × Row) → Int → Option Row
  | [], _ => none
  | (d', r) :: rest, d => if d' = d then some r else lookupRow rest d

/-- Setting final_place on the (first) row of date d, as the ORM commit in
set_final_place does. -/
def updateFinal : List (Int × Row) → Int → String → List (Int × Row)
  | [], _, _ => []
  | (d', r) :: rest, d, f =>
      if d' = d then (d', { r with final_place := some f }) :: rest
      else (d', r) :: updateFinal rest d f

/-- Number of daily_selection rows with date d. -/
def countDate (st : List (Int × Row)) (d : Int) : Nat :=
  (st.filter (fun p => p.1 = d)).length

/-- Python truthiness of an optional string (None and "" are falsy). -/
def truthyOptStr : Option String → Bool
  | none => false
  | some s => !s.isEmpty

/-- Lines 150-151 / 205-206: the cached pair is usable iff both entries
are truthy (time values are always truthy in Python 3). -/
def cacheResolved (c : Cache) : Option (List String × GVal) :=
  match c.today_choices, c.gathering_time with
  | some ps, some g => if ps.isEmpty then none else some (ps, g)
  | _, _ => none

/-- random.randint(3, 5) driven by a seed. -/
def randint35 (seed : Nat) : Nat := 3 + seed % 3

/-- random.sample(population, k): k distinct positions drawn one by one,
each draw removing the chosen element. -/
def pySample : List Nat → List String → Nat → List String
  | _, _, 0 => []
  | _, [], _ + 1 => []
  | seeds, a :: l, k + 1 =>
      let i := seeds.headD 0 % (a :: l).length
      (a :: l).get ⟨i, Nat.mod_lt _ (Nat.succ_pos _)⟩ ::
        pySample seeds.tail ((a :: l).eraseIdx i) k

/-- Lines 110-116: returns None (modelled none) when either catalog is
empty, which makes the starred call in pick_places raise TypeError. -/
def get_available_places_and_hours (s : Sys) : Option (List String × List Nat) :=
  if s.catalog_places.isEmpty || s.catalog_hours.isEmpty then none
  else some (s.catalog_places, s.catalog_hours)

/-- Lines 118-127: draw the count, the sample and the hour.  none models
the ValueError of random.sample when the count exceeds the population
and the IndexError of random.choice on an empty hour list. -/
def pick_place_and_time (ps : List String) (hs : List Nat) (rng : Rng) :
    Option (List String × Nat) :=
  let n := randint35 rng.nseed
  if n ≤ ps.length then
    match hs with
    | [] => none
    | h :: t =>
        some (pySample rng.sseeds ps n,
          (h :: t).get ⟨rng.hseed % (h :: t).length, Nat.mod_lt _ (Nat.succ_pos _)⟩)
  else none

/-- Lines 129-131: overwrite the two cache slots (final_place untouched). -/
def store_in_cache (sel : List String) (g : GVal) (s : Sys) : Sys :=
  { s with cache := { s.cache with today_choices := some sel, gathering_time := some g } }

/-- Lines 133-141: insert the new row; the unique constraint on date makes
the commit raise IntegrityError when a row for the date exists, leaving
the store unchanged (the caller catches the exception). -/
def store_in_db (now : Int) (sel : List String) (t : Nat) (s : Sys) : Sys :=
  if (lookupRow s.store (dateOf now)).isSome then s
  else { s with store :=
    (dateOf now, ⟨joinComma sel, combine (dateOf now) t, none⟩) :: s.store }

/-- Lines 99-108: pick_places.  The try/except contains every failure, so
the function is total; on a failure the state is exactly what the
mutations before the raise produced (the cache write precedes the
database write). -/
def pick_places (now : Int) (rng : Rng) (s : Sys) : Sys :=
  match get_available_places_and_hours s with
  | none => s
  | some (ps, hs) =>
      match pick_place_and_time ps hs rng with
      | none => s
      | some (sel, t) => store_in_db now sel t (store_in_cache sel (GVal.tod t) s)

/-- Lines 162-171: returns None when no row exists for today (the caller
then crashes unpacking it), otherwise the split places and the stored
gathering datetime. -/
def get_places_and_gathering_time_from_db (now : Int) (s : Sys) :
    Option (List String × Int) :=
  match lookupRow s.store (dateOf now) with
  | none => none
  | some r => some (splitComma r.places, r.gathering_time)

/-- Lines 150-153 and 205-208 (the identical cache-or-store resolution in
pick_final_place and get_choices): take the cached pair when truthy,
otherwise reload from the store and repopulate the cache; a reload miss
is the TypeError of unpacking None, raised before any cache write. -/
def resolveSelection (now : Int) (s : Sys) : Sys × Except PyErr (List String × GVal) :=
  match cacheResolved s.cache with
  | some (ps, g) => (s, Except.ok (ps, g))
  | none =>
      match get_places_and_gathering_time_from_db now s with
      | none => (s, Except.error PyErr.typeError)
      | some (ps, g) => (store_in_cache ps (GVal.dt g) s, Except.ok (ps, GVal.dt g))

/-- Lines 191-195: gathering_time - now ≤ 2 hours, negative differences
included.  Subtracting a datetime from a bare time-of-day raises
TypeError. -/
def is_within_two_hours_from_now : GVal → Int → Except PyErr Bool
  | GVal.tod _, _ => Except.error PyErr.typeError
  | GVal.dt g, now => Except.ok (decide (g - now ≤ 7200))

/-- Lines 173-188: set the final place in cache and store.  The local
try/except contains every failure: an empty place list (IndexError of
random.choice) leaves the state unchanged, and a missing row for today
leaves only the cache mutated. -/
def set_final_place (now : Int) (fseed : Nat) (ps : List String) (s : Sys) : Sys :=
  match ps with
  | [] => s
  | a :: t =>
      let f := (a :: t).get ⟨fseed % (a :: t).length, Nat.mod_lt _ (Nat.succ_pos _)⟩
      let s1 := { s with cache := { s.cache with final_place := some f } }
      match lookupRow s1.store (dateOf now) with
      | some _ => { s1 with store := updateFinal s1.store (dateOf now) f }
      | none => s1

/-- Lines 144-160: pick_final_place.  No surrounding try/except, so the
TypeError of the reload miss and the TypeError of the window check on a
time-of-day value both escape to the scheduler (the some PyErr results). -/
def pick_final_place (now : Int) (fseed : Nat) (s : Sys) : Sys × Option PyErr :=
  if truthyOptStr s.cache.final_place then (s, none)
  else
    match resolveSelection now s with
    | (s1, Except.error e) => (s1, some e)
    | (s1, Except.ok (ps, g)) =>
        if ps.isEmpty then (s1, none)
        else
          match is_within_two_hours_from_now g now with
          | Except.error e => (s1, some e)
          | Except.ok true => (set_final_place now fseed ps s1, none)
          | Except.ok false => (s1, none)

/-- Lines 203-227: GET /choices.  Same resolution as pick_final_place;
then the cached final place is included when truthy, otherwise within
the window one extra store read fetches a final place committed by
another process and caches it.  The endpoint has no try/except, so the
resolution TypeError and the window-check TypeError escape as a server
error. -/
def get_choices (now : Int) (s : Sys) : Sys × Except PyErr ChoicesResp :=
  match resolveSelection now s with
  | (s1, Except.error e) => (s1, Except.error e)
  | (s1, Except.ok (ps, g)) =>
      if ps.isEmpty then (s1, Except.ok ChoicesResp.noSelection)
      else if truthyOptStr s1.cache.final_place then
        (s1, Except.ok (ChoicesResp.choices ps g s1.cache.final_place))
      else
        match is_within_two_hours_from_now g now with
        | Except.error e => (s1, Except.error e)
        | Except.ok true =>
            match lookupRow s1.store (dateOf now) with
            | some r =>
                if truthyOptStr r.final_place then
                  ({ s1 with cache := { s1.cache with final_place := r.final_place } },
                   Except.ok (ChoicesResp.choices ps g r.final_place))
                else (s1, Except.ok (ChoicesResp.choices ps g none))
            | none => (s1, Except.ok (ChoicesResp.choices ps g none))
        | Except.ok false => (s1, Except.ok (ChoicesResp.choices ps g none))

/-- The cache at process start (line 65). -/
def initCache : Cache := ⟨none, none, none⟩

/-- A fresh system over given catalogs: empty cache, empty selection table. -/
def initSys (cp : List String) (ch : List Nat) : Sys := ⟨initCache, [], cp, ch⟩

/-- A process restart: the cache dies with the process, the store survives. -/
def restartSys (s : Sys) : Sys := { s with cache := initCache }

/-- One external stimulus: a scheduler tick of either job, a read, or a
process restart, each carrying the wall-clock second at which it runs. -/
inductive Ev where
  | pickPlaces (now : Int) (rng : Rng)
  | pickFinal (now : Int) (fseed : Nat)
  | getChoices (now : Int)
  | restart (now : Int)
deriving DecidableEq

def Ev.now : Ev → Int
  | .pickPlaces n _ => n
  | .pickFinal n _ => n
  | .getChoices n => n
  | .restart n => n

def Ev.isRestart : Ev → Bool
  | .restart _ => true
  | _ => false

/-- Effect of one stimulus on the state (returned values discarded). -/
def applyEv (e : Ev) (s : Sys) : Sys :=
  match e with
  | .pickPlaces now rng => pick_places now rng s
  | .pickFinal now fseed => (pick_final_place now fseed s).1
  | .getChoices now => (get_choices now s).1
  | .restart _ => restartSys s

/-- Run a sequence of stimuli. -/
def run (s : Sys) : List Ev → Sys
  | [] => s
  | e :: es => run (applyEv e s) es

/-- The wall clock never goes backwards along a trace (first event no
earlier than the given lower bound). -/
def timesMono : Int → List Ev → Bool
  | _, [] => true
  | t, e :: es => decide (t ≤ e.now) && timesMono e.now es

/-- The trace contains no process restart. -/
def noRestart (es : List Ev) : Bool := es.all (fun e => !e.isRestart)

/-- Clock value after the last event of a trace. -/
def endTime : Int → List Ev → Int
  | t, [] => t
  | _, e :: es => endTime e.now es

/-- A concrete five-place catalog used in witnesses and counterexamples. -/
def cpA : List String := ["A", "B", "C", "D", "E"]

/-- A one-hour catalog: 18:00 as 64800 seconds of day. -/
def chA : List Nat := [64800]

/-- Seeds drawing count 3 and always index 0: sample [A, B, C], hour 64800. -/
def rngA : Rng := ⟨0, [0, 0, 0, 0, 0], 0⟩

/-- Seeds drawing count 3 and always index 1: sample [B, C, D]. -/
def rngB : Rng := ⟨0, [1, 1, 1, 1, 1], 0⟩

deriving instance DecidableEq for Except

theorem dateOf_mono {a b : Int} (h : a ≤ b) : dateOf a ≤ dateOf b :=
  Int.ediv_le_ediv (by decide) h

theorem lookupRow_cons (d' : Int) (r : Row) (st : List (Int × Row)) (d : Int) :
    lookupRow ((d', r) :: st) d = if d' = d then some r else lookupRow st d := rfl

/-- Characterisation of lookupRow after updateFinal: the row of date d gets
final_place f, every other row is untouched, and no row appears or
disappears. -/
theorem lookup_updateFinal (st : List (Int × Row)) (d : Int) (f : String) (d' : Int) :
    lookupRow (updateFinal st d f) d' =
      match lookupRow st d' with
      | none => none
      | some r => if d' = d then some { r with final_place := some f } else some r := by
  induction st with
  | nil => rfl
  | cons p rest ih =>
      obtain ⟨k, v⟩ := p
      by_cases hkd : k = d
      · subst hkd
        by_cases hkd' : k = d'
        · subst hkd'
          simp [updateFinal, lookupRow]
        · simp only [updateFinal, if_pos rfl, lookupRow, if_neg hkd']
          have hne : ¬d' = k := fun h => hkd' h.symm
          cases lookupRow rest d' <;> simp [hne]
      · by_cases hkd' : k = d'
        · have hne : ¬d' = d := fun h => hkd (hkd'.trans h)
          simp [updateFinal, lookupRow, hkd, hkd', hne]
        · simp [updateFinal, lookupRow, hkd, hkd', ih]

theorem lookup_updateFinal_self (st : List (Int × Row)) (d : Int) (f : String) :
    lookupRow (updateFinal st d f) d =
      (lookupRow st d).map (fun r => { r with final_place := some f }) := by
  rw [lookup_updateFinal]
  cases lookupRow st d <;> simp

theorem lookup_updateFinal_other (st : List (Int × Row)) (d : Int) (f : String)
    (d' : Int) (h : ¬d' = d) :
    lookupRow (updateFinal st d f) d' = lookupRow st d' := by
  rw [lookup_updateFinal]
  cases lookupRow st d' <;> simp [h]

theorem lookupRow_isSome_of_countDate_pos {st : List (Int × Row)} {d : Int}
    (h : 0 < countDate st d) : (lookupRow st d).isSome := by
  induction st with
  | nil => simp [countDate] at h
  | cons p rest ih =>
      obtain ⟨k, v⟩ := p
      by_cases hk : k = d
      · simp [lookupRow, hk]
      · rw [lookupRow_cons, if_neg hk]
        apply ih
        unfold countDate at h ⊢
        rw [List.filter_cons] at h
        simpa [hk] using h

theorem countDate_store_eq {st st' : List (Int × Row)} {d : Int} (h : st' = st) :
    countDate st' d = countDate st d := by rw [h]

theorem get_not_mem_eraseIdx : ∀ (l : List String) (i : Nat) (h : i < l.length),
    l.Nodup → l.get ⟨i, h⟩ ∉ l.eraseIdx i
  | a :: t, 0, _, hnd => by
      simpa using (List.nodup_cons.mp hnd).1
  | a :: t, i + 1, h, hnd => by
      intro hmem
      have hlt : i < t.length := Nat.lt_of_succ_lt_succ h
      have hmem' : t.get ⟨i, hlt⟩ ∈ a :: t.eraseIdx i := hmem
      rcases List.mem_cons.mp hmem' with heq | htl
      · exact (List.nodup_cons.mp hnd).1 (heq ▸ List.get_mem t i hlt)
      · exact get_not_mem_eraseIdx t i hlt (List.nodup_cons.mp hnd).2 htl

theorem pySample_zero (seeds : List Nat) (l : List String) : pySample seeds l 0 = [] := by
  cases l <;> rfl

theorem pySample_succ_cons (seeds : List Nat) (a : String) (l : List String) (k : Nat) :
    pySample seeds (a :: l) (k + 1) =
      (a :: l).get ⟨seeds.headD 0 % (a :: l).length, Nat.mod_lt _ (Nat.succ_pos _)⟩ ::
        pySample seeds.tail ((a :: l).eraseIdx (seeds.headD 0 % (a :: l).length)) k := rfl

theorem pySample_subset : ∀ (seeds : List Nat) (l : List String) (k : Nat),
    ∀ x ∈ pySample seeds l k, x ∈ l := by
  intro seeds l k
  induction k generalizing seeds l with
  | zero => rw [pySample_zero]; intro x hx; exact absurd hx (List.not_mem_nil x)
  | succ n ih =>
      match l with
      | [] => intro x hx; exact absurd hx (by rw [show pySample seeds [] (n+1) = [] from rfl]; exact List.not_mem_nil x)
      | a :: t =>
          intro x hx
          rw [pySample_succ_cons] at hx
          rcases List.mem_cons.mp hx with h | h
          · exact h ▸ List.get_mem _ _ _
          · exact List.eraseIdx_subset _ _ (ih _ _ x h)

theorem pySample_length : ∀ (seeds : List Nat) (l : List String) (k : Nat),
    k ≤ l.length → (pySample seeds l k).length = k := by
  intro seeds l k
  induction k generalizing seeds l with
  | zero => intro _; rw [pySample_zero]; rfl
  | succ n ih =>
      match l with
      | [] => intro h; exact absurd h (by simp)
      | a :: t =>
          intro h
          have hlt : seeds.headD 0 % (a :: t).length < (a :: t).length :=
            Nat.mod_lt _ (Nat.succ_pos _)
          have h2 := List.length_eraseIdx_of_lt hlt
          have hb : n ≤ ((a :: t).eraseIdx (seeds.headD 0 % (a :: t).length)).length := by
            rw [h2]
            simp only [List.length_cons] at h ⊢
            omega
          rw [pySample_succ_cons, List.length_cons, ih _ _ hb]

theorem pySample_nodup : ∀ (seeds : List Nat) (l : List String) (k : Nat),
    l.Nodup → (pySample seeds l k).Nodup := by
  intro seeds l k
  induction k generalizing seeds l with
  | zero => intro _; rw [pySample_zero]; exact List.nodup_nil
  | succ n ih =>
      match l with
      | [] => intro _; rw [show pySample seeds [] (n+1) = [] from rfl]; exact List.nodup_nil
      | a :: t =>
          intro hnd
          rw [pySample_succ_cons]
          refine List.nodup_cons.mpr ⟨fun hmem => ?_, ih _ _ (hnd.eraseIdx _)⟩
          exact get_not_mem_eraseIdx _ _ _ hnd (pySample_subset _ _ _ _ hmem)

theorem randint35_bounds (seed : Nat) : 3 ≤ randint35 seed ∧ randint35 seed ≤ 5 := by
  unfold randint35
  have := Nat.mod_lt seed (show 0 < 3 by decide)
  omega

theorem splitCommaAux_ne_nil : ∀ (cs acc : List Char), splitCommaAux cs acc ≠ []
  | [], _ => by simp [splitCommaAux]
  | c :: cs, acc => by
      unfold splitCommaAux
      by_cases hc : c = ','
      · simp [hc]
      · simpa [hc] using splitCommaAux_ne_nil cs (c :: acc)

theorem splitComma_ne_nil (s : String) : splitComma s ≠ [] :=
  splitCommaAux_ne_nil _ _

theorem splitComma_isEmpty_false (s : String) : (splitComma s).isEmpty = false := by
  cases h : splitComma s with
  | nil => exact absurd h (splitComma_ne_nil s)
  | cons a t => rfl

theorem cacheResolved_some {c : Cache} {ps : List String} {g : GVal}
    (h : cacheResolved c = some (ps, g)) :
    c.today_choices = some ps ∧ c.gathering_time = some g ∧ ps.isEmpty = false := by
  obtain ⟨tc, gt, fp⟩ := c
  cases tc with
  | none => exact absurd h (by simp [cacheResolved])
  | some ps' =>
      cases gt with
      | none => exact absurd h (by simp [cacheResolved])
      | some g' =>
          by_cases he : ps'.isEmpty
          · exact absurd h (by simp [cacheResolved, he])
          · have h' : some (ps', g') = some (ps, g) := by
              simpa [cacheResolved, he] using h
            injection h' with h2
            obtain ⟨h3, h4⟩ := Prod.mk.inj h2
            subst h3; subst h4
            exact ⟨rfl, rfl, by simpa using he⟩

theorem resolve_cases (now : Int) (s : Sys) :
    (∃ ps g, cacheResolved s.cache = some (ps, g) ∧
       resolveSelection now s = (s, Except.ok (ps, g))) ∨
    (cacheResolved s.cache = none ∧ lookupRow s.store (dateOf now) = none ∧
       resolveSelection now s = (s, Except.error PyErr.typeError)) ∨
    (∃ r, cacheResolved s.cache = none ∧ lookupRow s.store (dateOf now) = some r ∧
       resolveSelection now s =
         (store_in_cache (splitComma r.places) (GVal.dt r.gathering_time) s,
          Except.ok (splitComma r.places, GVal.dt r.gathering_time))) := by
  unfold resolveSelection get_places_and_gathering_time_from_db
  cases hc : cacheResolved s.cache with
  | some p =>
      obtain ⟨ps, g⟩ := p
      exact Or.inl ⟨ps, g, rfl, rfl⟩
  | none =>
      cases hr : lookupRow s.store (dateOf now) with
      | none => exact Or.inr (Or.inl ⟨rfl, rfl, rfl⟩)
      | some r => exact Or.inr (Or.inr ⟨r, rfl, rfl, rfl⟩)

theorem resolve_ok_cache {now : Int} {s s1 : Sys} {ps : List String} {g : GVal}
    (h : resolveSelection now s = (s1, Except.ok (ps, g))) :
    s1.cache.today_choices = some ps ∧ s1.cache.gathering_time = some g ∧
      ps.isEmpty = false ∧ s1.store = s.store ∧
      s1.cache.final_place = s.cache.final_place ∧
      s1.catalog_places = s.catalog_places ∧ s1.catalog_hours = s.catalog_hours := by
  rcases resolve_cases now s with ⟨ps', g', hc, hre⟩ | ⟨_, _, hre⟩ | ⟨r, _, _, hre⟩
  · have heq := hre.symm.trans h
    obtain ⟨h1, h2⟩ := Prod.mk.inj heq
    injection h2 with h3
    obtain ⟨h4, h5⟩ := Prod.mk.inj h3
    subst h1; subst h4; subst h5
    have hc' := cacheResolved_some hc
    exact ⟨hc'.1, hc'.2.1, hc'.2.2, rfl, rfl, rfl, rfl⟩
  · rw [hre] at h; exact absurd h (by simp)
  · have heq := hre.symm.trans h
    obtain ⟨h1, h2⟩ := Prod.mk.inj heq
    injection h2 with h3
    obtain ⟨h4, h5⟩ := Prod.mk.inj h3
    subst h1; subst h4; subst h5
    exact ⟨rfl, rfl, splitComma_isEmpty_false _, rfl, rfl, rfl, rfl⟩

/-- Inductive invariant along any monotone-clock trace: every committed
final place belongs to its own row's (split) places; no row is dated
after the current clock's date; and whenever the cache holds a
database-derived (datetime) gathering value, the cache mirrors the
newest persisted row. -/
structure SysInv (t : Int) (s : Sys) : Prop where
  rowMem : ∀ d r, lookupRow s.store d = some r →
    ∀ f, r.final_place = some f → f ∈ splitComma r.places
  rowPast : ∀ d r, lookupRow s.store d = some r → d ≤ dateOf t
  cacheProv : ∀ ps g, s.cache.today_choices = some ps →
    s.cache.gathering_time = some (GVal.dt g) →
    ∃ d r, lookupRow s.store d = some r ∧ ps = splitComma r.places ∧
      g = r.gathering_time ∧ ∀ d2 r2, lookupRow s.store d2 = some r2 → d2 ≤ d

theorem SysInv.weaken {t t' : Int} {s : Sys} (h : SysInv t s) (ht : t ≤ t') : SysInv t' s :=
  ⟨h.rowMem, fun d r hr => le_trans (h.rowPast d r hr) (dateOf_mono ht), h.cacheProv⟩

theorem inv_init (t : Int) (cp : List String) (ch : List Nat) : SysInv t (initSys cp ch) :=
  ⟨fun d r h => by simp [initSys, lookupRow] at h,
   fun d r h => by simp [initSys, lookupRow] at h,
   fun ps g h _ => by simp [initSys, initCache] at h⟩

theorem inv_restart {t t' : Int} {s : Sys} (h : SysInv t s) (ht : t ≤ t') :
    SysInv t' (restartSys s) :=
  ⟨h.rowMem, fun d r hr => (h.weaken ht).rowPast d r hr,
   fun ps g hps _ => by simp [restartSys, initCache] at hps⟩

theorem inv_cache_final {t : Int} {s : Sys} (h : SysInv t s) (fp : Option String) :
    SysInv t { s with cache := { s.cache with final_place := fp } } :=
  ⟨h.rowMem, h.rowPast, h.cacheProv⟩

theorem inv_pick_places {t : Int} {s : Sys} (h : SysInv t s) {now : Int} (ht : t ≤ now)
    (rng : Rng) : SysInv now (pick_places now rng s) := by
  unfold pick_places
  cases get_available_places_and_hours s with
  | none => exact h.weaken ht
  | some p =>
      obtain ⟨cps, chs⟩ := p
      dsimp only
      cases pick_place_and_time cps chs rng with
      | none => exact h.weaken ht
      | some q =>
          obtain ⟨sel, td⟩ := q
          dsimp only
          unfold store_in_db
          by_cases hl :
            (lookupRow (store_in_cache sel (GVal.tod td) s).store (dateOf now)).isSome
          · rw [if_pos hl]
            exact ⟨h.rowMem, (h.weaken ht).rowPast,
              fun ps g hps hg => by simp [store_in_cache] at hg⟩
          · rw [if_neg hl]
            refine ⟨?_, ?_, fun ps g hps hg => by simp [store_in_cache] at hg⟩
            · intro d r hr f hf
              rw [lookupRow_cons] at hr
              by_cases hd : dateOf now = d
              · rw [if_pos hd] at hr
                injection hr with hr'
                rw [← hr'] at hf
                exact absurd hf (by simp)
              · rw [if_neg hd] at hr
                exact h.rowMem d r hr f hf
            · intro d r hr
              rw [lookupRow_cons] at hr
              by_cases hd : dateOf now = d
              · exact hd ▸ le_refl _
              · rw [if_neg hd] at hr
                exact (h.weaken ht).rowPast d r hr

theorem inv_set_final {now : Int} {s : Sys} (h : SysInv now s) (fseed : Nat)
    {ps : List String}
    (hp : ∃ d r, lookupRow s.store d = some r ∧ ps = splitComma r.places ∧
      ∀ d2 r2, lookupRow s.store d2 = some r2 → d2 ≤ d) :
    SysInv now (set_final_place now fseed ps s) := by
  obtain ⟨d0, r0, hr0, hps0, hmax⟩ := hp
  cases ps with
  | nil => exact h
  | cons a tl =>
      unfold set_final_place
      dsimp only
      cases hlk : lookupRow s.store (dateOf now) with
      | none => exact inv_cache_final h _
      | some r =>
          have hd0 : d0 = dateOf now :=
            le_antisymm (h.rowPast d0 r0 hr0) (hmax (dateOf now) r hlk)
          have hrr : r = r0 := by
            rw [hd0] at hr0
            exact Option.some.inj (hlk.symm.trans hr0)
          set f := (a :: tl).get ⟨fseed % (a :: tl).length, Nat.mod_lt _ (Nat.succ_pos _)⟩
            with hfdef
          have hfmem : f ∈ splitComma r.places := by
            rw [hrr, ← hps0]
            exact List.get_mem _ _ _
          refine ⟨?_, ?_, ?_⟩
          · intro d' r' hl' f' hf'
            by_cases hdd : d' = dateOf now
            · rw [hdd, lookup_updateFinal_self, hlk] at hl'
              have hl2 : { r with final_place := some f } = r' := Option.some.inj hl'
              rw [← hl2] at hf' ⊢
              have hf2 : some f = some f' := hf'
              rw [← Option.some.inj hf2]
              exact hfmem
            · rw [lookup_updateFinal_other _ _ _ _ hdd] at hl'
              exact h.rowMem d' r' hl' f' hf'
          · intro d' r' hl'
            by_cases hdd : d' = dateOf now
            · exact hdd ▸ le_refl _
            · rw [lookup_updateFinal_other _ _ _ _ hdd] at hl'
              exact h.rowPast d' r' hl'
          · intro ps' g' hps' hg'
            have hcp := h.cacheProv ps' g' hps' hg'
            obtain ⟨dw, rw', hlw, hpw, hgw, hmaxw⟩ := hcp
            by_cases hdw : dw = dateOf now
            · refine ⟨dw, { rw' with final_place := some f }, ?_, hpw, hgw, ?_⟩
              · rw [hdw] at hlw ⊢
                rw [lookup_updateFinal_self, hlw]
                rfl
              · intro d2 r2 hl2
                by_cases hb2 : d2 = dateOf now
                · rw [hb2, ← hdw]
                · rw [lookup_updateFinal_other _ _ _ _ hb2] at hl2
                  exact hmaxw d2 r2 hl2
            · refine ⟨dw, rw', ?_, hpw, hgw, ?_⟩
              · rw [lookup_updateFinal_other _ _ _ _ hdw]
                exact hlw
              · intro d2 r2 hl2
                by_cases hb2 : d2 = dateOf now
                · exact hb2 ▸ hmaxw (dateOf now) r hlk
                · rw [lookup_updateFinal_other _ _ _ _ hb2] at hl2
                  exact hmaxw d2 r2 hl2

theorem inv_resolve {t : Int} {s : Sys} (h : SysInv t s) {now : Int} (ht : t ≤ now) :
    SysInv now (resolveSelection now s).1 := by
  rcases resolve_cases now s with ⟨ps, g, hc, hre⟩ | ⟨_, _, hre⟩ | ⟨r, hc, hlk, hre⟩
  · rw [hre]; exact h.weaken ht
  · rw [hre]; exact h.weaken ht
  · rw [hre]
    refine ⟨h.rowMem, (h.weaken ht).rowPast, ?_⟩
    intro ps' g' hps' hg'
    have h1 : some (splitComma r.places) = some ps' := hps'
    have h2 : some (GVal.dt r.gathering_time) = some (GVal.dt g') := hg'
    have e1 := Option.some.inj h1
    have e2 : GVal.dt r.gathering_time = GVal.dt g' := Option.some.inj h2
    have e3 : r.gathering_time = g' := by injection e2
    exact ⟨dateOf now, r, hlk, e1.symm, e3.symm,
      fun d2 r2 hl2 => le_trans (h.rowPast d2 r2 hl2) (dateOf_mono ht)⟩

theorem inv_pick_final {t : Int} {s : Sys} (h : SysInv t s) {now : Int} (ht : t ≤ now)
    (fseed : Nat) : SysInv now (pick_final_place now fseed s).1 := by
  unfold pick_final_place
  by_cases hf : truthyOptStr s.cache.final_place
  · rw [if_pos hf]; exact h.weaken ht
  · rw [if_neg hf]
    rcases hres : resolveSelection now s with ⟨s1, res⟩
    have h1 : SysInv now s1 := by
      have hx := inv_resolve h ht
      rw [hres] at hx
      exact hx
    cases res with
    | error e => exact h1
    | ok p =>
        obtain ⟨ps, g⟩ := p
        dsimp only
        by_cases hemp : ps.isEmpty
        · rw [if_pos hemp]; exact h1
        · rw [if_neg hemp]
          cases g with
          | tod td => exact h1
          | dt gt =>
              by_cases hw : gt - now ≤ 7200
              · rw [show is_within_two_hours_from_now (GVal.dt gt) now = Except.ok true from by
                  simp [is_within_two_hours_from_now, hw]]
                dsimp only
                apply inv_set_final h1 fseed
                have hc := resolve_ok_cache hres
                obtain ⟨dw, rw2, hlw, hpw, hgw2, hmaxw⟩ := h1.cacheProv ps gt hc.1 hc.2.1
                exact ⟨dw, rw2, hlw, hpw, hmaxw⟩
              · rw [show is_within_two_hours_from_now (GVal.dt gt) now = Except.ok false from by
                  simp [is_within_two_hours_from_now, hw]]
                exact h1

theorem inv_get_choices {t : Int} {s : Sys} (h : SysInv t s) {now : Int} (ht : t ≤ now) :
    SysInv now (get_choices now s).1 := by
  unfold get_choices
  rcases hres : resolveSelection now s with ⟨s1, res⟩
  have h1 : SysInv now s1 := by
    have hx := inv_resolve h ht
    rw [hres] at hx
    exact hx
  cases res with
  | error e => exact h1
  | ok p =>
      obtain ⟨ps, g⟩ := p
      dsimp only
      by_cases hemp : ps.isEmpty
      · rw [if_pos hemp]; exact h1
      · rw [if_neg hemp]
        by_cases hfin : truthyOptStr s1.cache.final_place
        · rw [if_pos hfin]; exact h1
        · rw [if_neg hfin]
          cases g with
          | tod td => exact h1
          | dt gt =>
              by_cases hw : gt - now ≤ 7200
              · rw [show is_within_two_hours_from_now (GVal.dt gt) now = Except.ok true from by
                  simp [is_within_two_hours_from_now, hw]]
                dsimp only
                cases hlk : lookupRow s1.store (dateOf now) with
                | none => exact h1
                | some r =>
                    dsimp only
                    by_cases hrf : truthyOptStr r.final_place
                    · rw [if_pos hrf]
                      exact inv_cache_final h1 _
                    · rw [if_neg hrf]; exact h1
              · rw [show is_within_two_hours_from_now (GVal.dt gt) now = Except.ok false from by
                  simp [is_within_two_hours_from_now, hw]]
                exact h1

theorem inv_step {t : Int} {s : Sys} (h : SysInv t s) {e : Ev} (ht : t ≤ e.now) :
    SysInv e.now (applyEv e s) := by
  cases e with
  | pickPlaces now rng => exact inv_pick_places h ht rng
  | pickFinal now fseed => exact inv_pick_final h ht fseed
  | getChoices now => exact inv_get_choices h ht
  | restart now => exact inv_restart h ht

theorem inv_run : ∀ (es : List Ev) {t : Int} {s : Sys}, SysInv t s →
    timesMono t es = true → SysInv (endTime t es) (run s es)
  | [], _, _, h, _ => h
  | e :: es, t, s, h, hm => by
      unfold timesMono at hm
      rw [Bool.and_eq_true, decide_eq_true_eq] at hm
      exact inv_run es (inv_step h hm.1) hm.2

/-- While the cache holds a truthy final place and the process does not
restart, no operation touches an existing store row or the cached final
place: pick_final_place short-circuits, get_choices only reports, and
pick_places can only insert a row for a date that has none. -/
theorem step_keeps_rows {s : Sys} (hf : truthyOptStr s.cache.final_place = true)
    {e : Ev} (hr : e.isRestart = false) :
    truthyOptStr (applyEv e s).cache.final_place = true ∧
    ∀ d r, lookupRow s.store d = some r → lookupRow (applyEv e s).store d = some r := by
  cases e with
  | restart n => simp [Ev.isRestart] at hr
  | pickFinal now fseed =>
      simp only [applyEv]
      unfold pick_final_place
      rw [if_pos hf]
      exact ⟨hf, fun d r h => h⟩
  | pickPlaces now rng =>
      simp only [applyEv]
      unfold pick_places
      cases get_available_places_and_hours s with
      | none => exact ⟨hf, fun d r h => h⟩
      | some p =>
          obtain ⟨cps, chs⟩ := p
          dsimp only
          cases pick_place_and_time cps chs rng with
          | none => exact ⟨hf, fun d r h => h⟩
          | some q =>
              obtain ⟨sel, td⟩ := q
              dsimp only
              unfold store_in_db
              by_cases hl :
                (lookupRow (store_in_cache sel (GVal.tod td) s).store (dateOf now)).isSome
              · rw [if_pos hl]
                exact ⟨hf, fun d r h => h⟩
              · rw [if_neg hl]
                refine ⟨hf, fun d r h => ?_⟩
                dsimp only
                rw [lookupRow_cons]
                have hne : ¬dateOf now = d := by
                  intro he
                  rw [show (store_in_cache sel (GVal.tod td) s).store = s.store from rfl,
                    he, h] at hl
                  exact hl rfl
                rw [if_neg hne]
                exact h
  | getChoices now =>
      simp only [applyEv]
      unfold get_choices
      rcases resolve_cases now s with ⟨ps, g, hc, hre⟩ | ⟨_, _, hre⟩ | ⟨r, hc, hlk, hre⟩
      · rw [hre]
        dsimp only
        have hc' := cacheResolved_some hc
        rw [if_neg (by rw [hc'.2.2]; exact Bool.false_ne_true)]
        rw [if_pos hf]
        exact ⟨hf, fun d r h => h⟩
      · rw [hre]
        exact ⟨hf, fun d r h => h⟩
      · rw [hre]
        dsimp only
        rw [if_neg (by rw [splitComma_isEmpty_false]; exact Bool.false_ne_true)]
        rw [if_pos (show truthyOptStr
          (store_in_cache (splitComma r.places) (GVal.dt r.gathering_time) s).cache.final_place
            = true from hf)]
        exact ⟨hf, fun d r h => h⟩

theorem run_keeps_rows : ∀ (es : List Ev) {s : Sys},
    truthyOptStr s.cache.final_place = true → noRestart es = true →
    ∀ d r, lookupRow s.store d = some r → lookupRow (run s es).store d = some r
  | [], _, _, _, _, _, h => h
  | e :: es, s, hf, hnr, d, r, h => by
      have hnr' : (!e.isRestart) = true ∧ noRestart es = true := by
        unfold noRestart at hnr
        rw [List.all_cons, Bool.and_eq_true] at hnr
        exact ⟨hnr.1, hnr.2⟩
      have he : e.isRestart = false := by
        rcases hnr' with ⟨h1, _⟩
        simpa using h1
      have step := step_keeps_rows hf he
      exact run_keeps_rows es step.1 hnr'.2 d r (step.2 d r h)

theorem set_final_cache_some (now : Int) (fseed : Nat) (a : String) (tl : List String)
    (s : Sys) :
    ∃ f, (set_final_place now fseed (a :: tl) s).cache.final_place = some f ∧
      f ∈ a :: tl := by
  unfold set_final_place
  dsimp only
  cases lookupRow s.store (dateOf now) <;> exact ⟨_, rfl, List.get_mem _ _ _⟩

theorem resolve_cold_empty (now : Int) (s : Sys)
    (hc : s.cache = initCache) (hrow : lookupRow s.store (dateOf now) = none) :
    resolveSelection now s = (s, Except.error PyErr.typeError) := by
  unfold resolveSelection
  rw [show cacheResolved s.cache = none from by rw [hc]; rfl]
  unfold get_places_and_gathering_time_from_db
  rw [hrow]

/-- Claim C1 (code bug evaluation): in the process that ran pick_places,
the cache's gathering value is a bare time-of-day, so the next
pick_final_place inside the intended two-hour window raises TypeError
from the datetime subtraction instead of committing a final place: the
state is unchanged, no final place is set in cache or store. -/
theorem pick_final_after_pick_places_raises :
    pick_final_place 60000 0 (pick_places 0 rngA (initSys cpA chA)) =
      (pick_places 0 rngA (initSys cpA chA), some PyErr.typeError) ∧
    (pick_places 0 rngA (initSys cpA chA)).cache.gathering_time =
      some (GVal.tod 64800) ∧
    lookupRow (pick_places 0 rngA (initSys cpA chA)).store 0 =
      some ⟨"A,B,C", 64800, none⟩ := by decide

/-- Claim C3 (code bug evaluation): with a cold cache and no DailySelection
row for today, get_choices raises TypeError (it unpacks the None
returned by the reload helper) instead of returning the sentinel
message; the sentinel branch is unreachable in this state. -/
theorem get_choices_cold_empty_raises (now : Int) (s : Sys)
    (hc : s.cache = initCache) (hrow : lookupRow s.store (dateOf now) = none) :
    get_choices now s = (s, Except.error PyErr.typeError) := by
  unfold get_choices
  rw [resolve_cold_empty now s hc hrow]

theorem get_choices_cold_empty_raises_witness :
    get_choices 0 (initSys cpA chA) = (initSys cpA chA, Except.error PyErr.typeError) :=
  get_choices_cold_empty_raises 0 (initSys cpA chA) rfl rfl

/-- Claim C4 (code bug evaluation): pick_final_place has no try/except, so
with a cold cache and no row for today the TypeError escapes to the
scheduler driver instead of being contained. -/
theorem pick_final_cold_empty_raises (now : Int) (fseed : Nat) (s : Sys)
    (hc : s.cache = initCache) (hrow : lookupRow s.store (dateOf now) = none) :
    pick_final_place now fseed s = (s, some PyErr.typeError) := by
  unfold pick_final_place
  rw [show truthyOptStr s.cache.final_place = false from by rw [hc]; rfl]
  rw [if_neg (by simp)]
  rw [resolve_cold_empty now s hc hrow]

theorem pick_final_cold_empty_raises_witness :
    pick_final_place 0 0 (initSys cpA chA) =
      (initSys cpA chA, some PyErr.typeError) :=
  pick_final_cold_empty_raises 0 0 (initSys cpA chA) rfl rfl

/-- Claim C9: with an empty place catalog or an empty hour catalog,
pick_places returns its input state unchanged: no store mutation, no
cache mutation, and (being total in this model, mirroring the
surrounding try/except of the source) no exception to its caller. -/
theorem pick_places_empty_catalog (now : Int) (rng : Rng) (s : Sys)
    (h : s.catalog_places = [] ∨ s.catalog_hours = []) :
    pick_places now rng s = s := by
  unfold pick_places
  have hga : get_available_places_and_hours s = none := by
    unfold get_available_places_and_hours
    rcases h with h | h <;> rw [h] <;> simp
  rw [hga]

theorem pick_places_empty_catalog_witness :
    pick_places 0 rngA (initSys [] chA) = initSys [] chA :=
  pick_places_empty_catalog 0 rngA (initSys [] chA) (Or.inl rfl)

/-- Claim C6: with no cached final place and the selection resolving to a
datetime gathering value gt (from the cache or reloaded from the
store), pick_final_place returns without error and commits a final
place exactly when gt - now ≤ 2 hours, negative differences included;
when the difference is strictly above 2 hours it leaves the store
untouched and the cached final place unset. -/
theorem pick_final_window_iff (now : Int) (fseed : Nat) (s s1 : Sys)
    (ps : List String) (gt : Int)
    (hfin : s.cache.final_place = none)
    (hres : resolveSelection now s = (s1, Except.ok (ps, GVal.dt gt)))
    (hne : ps ≠ []) :
    (pick_final_place now fseed s).2 = none ∧
    ((pick_final_place now fseed s).1.cache.final_place.isSome ↔ gt - now ≤ 7200) ∧
    (7200 < gt - now → (pick_final_place now fseed s).1.store = s.store ∧
      (pick_final_place now fseed s).1.cache.final_place = none) := by
  have hc := resolve_ok_cache hres
  have hemp : ps.isEmpty = false := hc.2.2.1
  unfold pick_final_place
  rw [show truthyOptStr s.cache.final_place = false from by rw [hfin]; rfl]
  rw [if_neg (by simp), hres]
  dsimp only
  rw [if_neg (by simp [hemp])]
  by_cases hw : gt - now ≤ 7200
  · rw [show is_within_two_hours_from_now (GVal.dt gt) now = Except.ok true from by
      simp [is_within_two_hours_from_now, hw]]
    dsimp only
    refine ⟨rfl, ?_, fun hcon => absurd hw (by omega)⟩
    cases ps with
    | nil => exact absurd rfl hne
    | cons a tl =>
        obtain ⟨f, hset, _⟩ := set_final_cache_some now fseed a tl s1
        simp [hset, hw]
  · rw [show is_within_two_hours_from_now (GVal.dt gt) now = Except.ok false from by
      simp [is_within_two_hours_from_now, hw]]
    dsimp only
    refine ⟨rfl, ?_, fun _ => ⟨hc.2.2.2.1, ?_⟩⟩
    · rw [hc.2.2.2.2.1, hfin]
      simp [hw]
    · rw [hc.2.2.2.2.1, hfin]

theorem pick_final_window_iff_witness :
    (pick_final_place 60000 0
      ⟨⟨some ["A", "B"], some (GVal.dt 64800), none⟩, [], cpA, chA⟩).2 = none ∧
    ((pick_final_place 60000 0
      ⟨⟨some ["A", "B"], some (GVal.dt 64800), none⟩, [], cpA, chA⟩).1.cache.final_place.isSome
        ↔ (64800 : Int) - 60000 ≤ 7200) ∧
    (7200 < (64800 : Int) - 60000 →
      (pick_final_place 60000 0
        ⟨⟨some ["A", "B"], some (GVal.dt 64800), none⟩, [], cpA, chA⟩).1.store =
        (⟨⟨some ["A", "B"], some (GVal.dt 64800), none⟩, [], cpA, chA⟩ : Sys).store ∧
      (pick_final_place 60000 0
        ⟨⟨some ["A", "B"], some (GVal.dt 64800), none⟩, [], cpA, chA⟩).1.cache.final_place
          = none) :=
  pick_final_window_iff 60000 0
    ⟨⟨some ["A", "B"], some (GVal.dt 64800), none⟩, [], cpA, chA⟩
    ⟨⟨some ["A", "B"], some (GVal.dt 64800), none⟩, [], cpA, chA⟩
    ["A", "B"] 64800 rfl (by decide) (by decide)

/-- Claim C7 counterexample: a second pick_places on the same date leaves
the store unchanged with exactly one row, but it is not a no-op: it
overwrites the process cache with the freshly drawn selection, which is
different from the one the store keeps. -/
theorem second_pick_places_not_noop :
    countDate (pick_places 20 rngB (pick_places 10 rngA (initSys cpA chA))).store 0 = 1 ∧
    (pick_places 20 rngB (pick_places 10 rngA (initSys cpA chA))).store =
      (pick_places 10 rngA (initSys cpA chA)).store ∧
    (pick_places 10 rngA (initSys cpA chA)).cache.today_choices = some ["A", "B", "C"] ∧
    (pick_places 20 rngB (pick_places 10 rngA (initSys cpA chA))).cache.today_choices =
      some ["B", "C", "D"] := by decide

/-- Claim C7 (amended): when a DailySelection row already exists for the
current date, another pick_places leaves the store unchanged — the date
still has exactly one row — and the call returns normally (the model is
total, mirroring the try/except of the source); only the process cache
is overwritten by the new draw. -/
theorem pick_places_duplicate_date (now : Int) (rng : Rng) (s : Sys)
    (h1 : countDate s.store (dateOf now) = 1) :
    (pick_places now rng s).store = s.store ∧
    countDate (pick_places now rng s).store (dateOf now) = 1 := by
  have hsome : (lookupRow s.store (dateOf now)).isSome :=
    lookupRow_isSome_of_countDate_pos (by omega)
  have hst : (pick_places now rng s).store = s.store := by
    unfold pick_places
    cases get_available_places_and_hours s with
    | none => rfl
    | some p =>
        obtain ⟨cps, chs⟩ := p
        dsimp only
        cases pick_place_and_time cps chs rng with
        | none => rfl
        | some q =>
            obtain ⟨sel, td⟩ := q
            dsimp only
            unfold store_in_db
            rw [if_pos (show
              (lookupRow (store_in_cache sel (GVal.tod td) s).store (dateOf now)).isSome
                = true from hsome)]
            rfl
  exact ⟨hst, by rw [hst]; exact h1⟩

theorem pick_places_duplicate_date_witness :
    (pick_places 20 rngB (pick_places 10 rngA (initSys cpA chA))).store =
      (pick_places 10 rngA (initSys cpA chA)).store ∧
    countDate (pick_places 20 rngB (pick_places 10 rngA (initSys cpA chA))).store
      (dateOf 20) = 1 :=
  pick_places_duplicate_date 20 rngB (pick_places 10 rngA (initSys cpA chA)) (by decide)

/-- Claim C8 counterexample: pick_places on day 0 populates the cache, and
on day 1, with no operation in between, the cache is still non-empty
while no DailySelection row exists for the current date — so the cache
contents are not derivable from the current day's row. -/
theorem cache_not_derivable_after_rollover :
    (pick_places 0 rngA (initSys cpA chA)).cache.today_choices = some ["A", "B", "C"] ∧
    (pick_places 0 rngA (initSys cpA chA)).cache.gathering_time = some (GVal.tod 64800) ∧
    lookupRow (pick_places 0 rngA (initSys cpA chA)).store (dateOf 86400) = none := by
  decide

/-- Claim C8 (amended): in every state reachable along a monotone-clock
trace from a fresh system, whenever the cache holds places together
with a store-derived (datetime) gathering value, its contents coincide
with a persisted DailySelection row — the newest one; when the cache
holds the bare time-of-day written by pick_places, or the date has
rolled over, no such derivability from the current day's row is
guaranteed. -/
theorem cache_dt_matches_newest_row (cp : List String) (ch : List Nat) (t0 : Int)
    (es : List Ev) (hm : timesMono t0 es = true) (ps : List String) (g : Int)
    (hc : (run (initSys cp ch) es).cache.today_choices = some ps)
    (hg : (run (initSys cp ch) es).cache.gathering_time = some (GVal.dt g)) :
    ∃ d r, lookupRow (run (initSys cp ch) es).store d = some r ∧
      ps = splitComma r.places ∧ g = r.gathering_time ∧
      ∀ d2 r2, lookupRow (run (initSys cp ch) es).store d2 = some r2 → d2 ≤ d :=
  (inv_run es (inv_init t0 cp ch) hm).cacheProv ps g hc hg

theorem cache_dt_matches_newest_row_witness :
    ∃ d r,
      lookupRow (run (initSys cpA chA)
        [Ev.pickPlaces 0 rngA, Ev.restart 100, Ev.getChoices 100]).store d = some r ∧
      ["A", "B", "C"] = splitComma r.places ∧ (64800 : Int) = r.gathering_time ∧
      ∀ d2 r2, lookupRow (run (initSys cpA chA)
        [Ev.pickPlaces 0 rngA, Ev.restart 100, Ev.getChoices 100]).store d2 = some r2 →
          d2 ≤ d :=
  cache_dt_matches_newest_row cpA chA 0
    [Ev.pickPlaces 0 rngA, Ev.restart 100, Ev.getChoices 100]
    (by decide) ["A", "B", "C"] 64800 (by decide) (by decide)

/-- Claim C10 counterexample: pick_places on day 0 leaves a bare
time-of-day in the cache; a get_choices on day 1 (no row for that date)
does not return the cached places and gathering time — it raises
TypeError from the window check. -/
theorem stale_tod_cache_get_choices_raises :
    lookupRow (pick_places 0 rngA (initSys cpA chA)).store (dateOf 146400) = none ∧
    (get_choices 146400 (pick_places 0 rngA (initSys cpA chA))).2 =
      Except.error PyErr.typeError := by decide

/-- Claim C10 (amended): the cache is never cleared at a date rollover.
When the surviving cache holds a store-derived (datetime) gathering
value, get_choices returns the cached — possibly earlier-day — places
and gathering time rather than the sentinel, even though no row exists
for the current date; when the survivor is the bare time-of-day written
by pick_places and no final place is cached, get_choices instead raises
a type error. -/
theorem get_choices_stale_dt_cache (now : Int) (s : Sys) (ps : List String) (g : Int)
    (hps : s.cache.today_choices = some ps) (hne : ps.isEmpty = false)
    (hg : s.cache.gathering_time = some (GVal.dt g))
    (hrow : lookupRow s.store (dateOf now) = none) :
    ∃ fp, (get_choices now s).2 = Except.ok (ChoicesResp.choices ps (GVal.dt g) fp) := by
  have hcr : cacheResolved s.cache = some (ps, GVal.dt g) := by
    unfold cacheResolved
    rw [hps, hg]
    dsimp only
    simp [hne]
  have hres : resolveSelection now s = (s, Except.ok (ps, GVal.dt g)) := by
    unfold resolveSelection
    rw [hcr]
  unfold get_choices
  rw [hres]
  dsimp only
  rw [if_neg (by simp [hne])]
  by_cases hfin : truthyOptStr s.cache.final_place
  · rw [if_pos hfin]
    exact ⟨s.cache.final_place, rfl⟩
  · rw [if_neg hfin]
    by_cases hw : g - now ≤ 7200
    · rw [show is_within_two_hours_from_now (GVal.dt g) now = Except.ok true from by
        simp [is_within_two_hours_from_now, hw]]
      dsimp only
      rw [hrow]
      exact ⟨none, rfl⟩
    · rw [show is_within_two_hours_from_now (GVal.dt g) now = Except.ok false from by
        simp [is_within_two_hours_from_now, hw]]
      exact ⟨none, rfl⟩

theorem get_choices_stale_dt_cache_witness :
    ∃ fp, (get_choices 146400
      ⟨⟨some ["A", "B", "C"], some (GVal.dt 64800), none⟩, [], cpA, chA⟩).2 =
        Except.ok (ChoicesResp.choices ["A", "B", "C"] (GVal.dt 64800) fp) :=
  get_choices_stale_dt_cache 146400
    ⟨⟨some ["A", "B", "C"], some (GVal.dt 64800), none⟩, [], cpA, chA⟩
    ["A", "B", "C"] 64800 rfl rfl rfl rfl

/-- Claim C2 counterexample: the final place committed for day 0 is "A";
after a process restart a later pick_final_place inside the window
overwrites it with "B" — the store field is not write-once across
restarts. -/
theorem final_place_rewritten_after_restart :
    lookupRow (run (initSys cpA chA)
      [Ev.pickPlaces 0 rngA, Ev.restart 60000, Ev.pickFinal 60000 0]).store 0 =
        some ⟨"A,B,C", 64800, some "A"⟩ ∧
    lookupRow (run (initSys cpA chA)
      [Ev.pickPlaces 0 rngA, Ev.restart 60000, Ev.pickFinal 60000 0,
       Ev.restart 60500, Ev.pickFinal 60500 1]).store 0 =
        some ⟨"A,B,C", 64800, some "B"⟩ := by decide

/-- Claim C2 (amended): along any monotone-clock trace from a fresh
system, a final place committed in the store is always a member of its
own row's (comma-split) places; and as long as the process is not
restarted while its cache holds a truthy final place, every existing
row — its final place included — stays exactly as it is.  Only a
restart (which clears the cache guard) lets a later pick_final_place
overwrite the committed value, as the counterexample shows. -/
theorem final_place_member_and_run_stable (cp : List String) (ch : List Nat)
    (t0 : Int) (es : List Ev) (hm : timesMono t0 es = true) :
    (∀ d r, lookupRow (run (initSys cp ch) es).store d = some r →
      ∀ f, r.final_place = some f → f ∈ splitComma r.places) ∧
    (∀ es2, noRestart es2 = true →
      truthyOptStr (run (initSys cp ch) es).cache.final_place = true →
      ∀ d r, lookupRow (run (initSys cp ch) es).store d = some r →
        lookupRow (run (run (initSys cp ch) es) es2).store d = some r) :=
  ⟨(inv_run es (inv_init t0 cp ch) hm).rowMem,
   fun es2 hnr hf d r h => run_keeps_rows es2 hf hnr d r h⟩

theorem final_place_member_and_run_stable_witness :
    ("A" ∈ splitComma "A,B,C") ∧
    lookupRow (run (run (initSys cpA chA)
        [Ev.pickPlaces 0 rngA, Ev.restart 60000, Ev.pickFinal 60000 0])
        [Ev.pickFinal 61000 1, Ev.getChoices 62000]).store 0 =
      some ⟨"A,B,C", 64800, some "A"⟩ := by
  have h := final_place_member_and_run_stable cpA chA 0
    [Ev.pickPlaces 0 rngA, Ev.restart 60000, Ev.pickFinal 60000 0] (by decide)
  exact ⟨h.1 0 ⟨"A,B,C", 64800, some "A"⟩ (by decide) "A" rfl,
    h.2 [Ev.pickFinal 61000 1, Ev.getChoices 62000] (by decide) (by decide) 0
      ⟨"A,B,C", 64800, some "A"⟩ (by decide)⟩

/-- Claim C5: over any catalog with at least five (pairwise distinct)
places and at least one hour, and a date with no row yet, pick_places
caches a selection of 3 to 5 pairwise-distinct catalog places together
with the drawn time-of-day, and persists a row whose places column is
the comma-join of that selection and whose gathering time is today's
date combined with an hour from the catalog. -/
theorem pick_places_spec (now : Int) (rng : Rng) (s : Sys)
    (hlen : 5 ≤ s.catalog_places.length) (hnd : s.catalog_places.Nodup)
    (hh : s.catalog_hours ≠ [])
    (hfresh : lookupRow s.store (dateOf now) = none) :
    ∃ sel t,
      (pick_places now rng s).cache.today_choices = some sel ∧
      (pick_places now rng s).cache.gathering_time = some (GVal.tod t) ∧
      sel.Nodup ∧ 3 ≤ sel.length ∧ sel.length ≤ 5 ∧
      (∀ x ∈ sel, x ∈ s.catalog_places) ∧ t ∈ s.catalog_hours ∧
      lookupRow (pick_places now rng s).store (dateOf now) =
        some ⟨joinComma sel, combine (dateOf now) t, none⟩ := by
  have hpe : s.catalog_places.isEmpty = false := by
    cases hcp : s.catalog_places with
    | nil => rw [hcp] at hlen; exact absurd hlen (by simp)
    | cons a l => rfl
  have hb := randint35_bounds rng.nseed
  cases hch : s.catalog_hours with
  | nil => exact absurd hch hh
  | cons h0 t0 =>
      have hhe : s.catalog_hours.isEmpty = false := by rw [hch]; rfl
      have hga : get_available_places_and_hours s =
          some (s.catalog_places, s.catalog_hours) := by
        unfold get_available_places_and_hours
        rw [hpe, hhe]
        rfl
      have hnle : randint35 rng.nseed ≤ s.catalog_places.length := le_trans hb.2 hlen
      have hpt : pick_place_and_time s.catalog_places s.catalog_hours rng =
          some (pySample rng.sseeds s.catalog_places (randint35 rng.nseed),
            (h0 :: t0).get ⟨rng.hseed % (h0 :: t0).length,
              Nat.mod_lt _ (Nat.succ_pos _)⟩) := by
        unfold pick_place_and_time
        rw [if_pos hnle, hch]
      refine ⟨pySample rng.sseeds s.catalog_places (randint35 rng.nseed),
        (h0 :: t0).get ⟨rng.hseed % (h0 :: t0).length, Nat.mod_lt _ (Nat.succ_pos _)⟩,
        ?_⟩
      unfold pick_places
      rw [hga]
      dsimp only
      rw [hpt]
      dsimp only
      unfold store_in_db
      rw [if_neg (show ¬(lookupRow (store_in_cache _ _ s).store (dateOf now)).isSome
        = true from by
          rw [show (store_in_cache _ _ s).store = s.store from rfl, hfresh]
          simp)]
      refine ⟨rfl, rfl, pySample_nodup _ _ _ hnd, ?_, ?_, ?_, ?_, ?_⟩
      · rw [pySample_length _ _ _ hnle]; exact hb.1
      · rw [pySample_length _ _ _ hnle]; exact hb.2
      · exact fun x hx => pySample_subset _ _ _ x hx
      · exact List.get_mem _ _ _
      · dsimp only
        rw [lookupRow_cons, if_pos rfl]

theorem pick_places_spec_witness :
    ∃ sel t,
      (pick_places 0 rngA (initSys cpA chA)).cache.today_choices = some sel ∧
      (pick_places 0 rngA (initSys cpA chA)).cache.gathering_time =
        some (GVal.tod t) ∧
      sel.Nodup ∧ 3 ≤ sel.length ∧ sel.length ≤ 5 ∧
      (∀ x ∈ sel, x ∈ (initSys cpA chA).catalog_places) ∧
      t ∈ (initSys cpA chA).catalog_hours ∧
      lookupRow (pick_places 0 rngA (initSys cpA chA)).store (dateOf 0) =
        some ⟨joinComma sel, combine (dateOf 0) t, none⟩ :=
  pick_places_spec 0 rngA (initSys cpA chA) (by decide) (by decide) (by decide) rfl
